import Mathlib

/-!
Shallow embedding of `EBTorchProcess` (the torch sub-process orchestrator of
electric-brain): the wire messages, the sequential broadcast of exchanges over
the worker pool performed with `Promise.each`, the residency record
`allLoadedEntries`, round-robin batch dispatch in `processObjects`, the
single-worker operations `processBatch` / `executeTrainingIteration`, the
`startProcess` spawn-and-handshake sequence, and the `async.retry` polling loop
of `extractNetworkDiagrams`.

Workers are identified by their 0-based index in `self.processes`; a pool of
`N` workers is the index list `List.range N`.  A worker's behaviour on one
exchange is abstracted as `ack : Nat → Msg → Bool`: whether the
`writeAndWaitForMatchingOutput` exchange for that message completes
successfully on that worker.  Opaque JSON payloads are abstracted as `Nat`.
-/

/-- The request messages of the wire protocol written by `EBTorchProcess`
(`{type: "store", id, input, output}`, `{type: "forget", id}`, …).  The opaque
`input`/`output` payloads of a store message are abstracted as naturals. -/
inductive Msg where
  | handshake : Msg
  | reset : Msg
  | store (id : String) (input : Nat) (output : Nat) : Msg
  | forget (id : String) : Msg
  | evaluate (samples : List String) : Msg
  | evaluateBatch (batchFilename : String) : Msg
  | iteration (batchFilename : String) : Msg
deriving DecidableEq, Repr

/-- The reply `type` tag that `writeAndWaitForMatchingOutput` waits for after
each request message, as hard-coded at each call site of `EBTorchProcess`. -/
def expectedReplyTag : Msg → String
  | Msg.handshake => "handshake"
  | Msg.reset => "resetCompleted"
  | Msg.store _ _ _ => "stored"
  | Msg.forget _ => "forgotten"
  | Msg.evaluate _ => "evaluationCompleted"
  | Msg.evaluateBatch _ => "evaluationCompleted"
  | Msg.iteration _ => "iterationCompleted"

/-- One exchange as sent on the wire: the worker it is addressed to, the
request message, and the reply tag the caller waits for. -/
structure Exchange where
  worker : Nat
  request : Msg
  reply : String
deriving DecidableEq, Repr

/-- The exchanges of a trace addressed to worker `w`. -/
def sentTo (w : Nat) (trace : List Exchange) : List Exchange :=
  trace.filter (fun e => e.worker == w)

/-- Embedding of `Promise.each(self.processes, p => p.writeAndWaitForMatchingOutput(msg, …))`:
the message is sent to the workers one at a time in list order; the iteration
stops at the first worker whose exchange fails (that worker was still sent the
message), and the promise fulfills only when every worker acknowledged.
Returns the trace of exchanges actually sent and whether the promise
fulfilled. -/
def sendSeq (ack : Nat → Msg → Bool) (m : Msg) : List Nat → List Exchange × Bool
  | [] => ([], true)
  | w :: ws =>
    if ack w m then
      let r := sendSeq ack m ws
      (⟨w, m, expectedReplyTag m⟩ :: r.1, r.2)
    else
      ([⟨w, m, expectedReplyTag m⟩], false)

/-- The observable outcome of one `EBTorchProcess` residency operation: the
exchanges sent, the value of `allLoadedEntries` afterwards, and whether the
returned promise fulfilled. -/
structure OpResult where
  trace : List Exchange
  state : List String
  ok : Bool
deriving DecidableEq, Repr

/-- JavaScript `Array.prototype.indexOf`: the first index holding the value,
or `-1` when the value is absent. -/
def jsIndexOf (x : String) : List String → Int
  | [] => -1
  | y :: ys =>
    if y = x then 0
    else
      let r := jsIndexOf x ys
      if r = -1 then -1 else r + 1

/-- JavaScript `arr.splice(start, 1)`: a negative `start` counts from the end
(so `-1` designates the last element), the start is clamped into `[0, length]`,
and one element is deleted at the resulting position. -/
def jsSpliceRemoveOne (l : List String) (start : Int) : List String :=
  let len : Int := (l.length : Int)
  let s : Nat := (if start < 0 then max (len + start) 0 else min start len).toNat
  l.take s ++ l.drop (s + 1)

/-- Embedding of `EBTorchProcess.loadObject(id, input, output)`: broadcast the store message
with `Promise.each`; the fulfillment handler pushes `id` onto
`allLoadedEntries`, so the id is recorded only when every worker replied
`stored`, and never on rejection. -/
def loadObject (ack : Nat → Msg → Bool) (numProcesses : Nat) (st : List String)
    (id : String) (input : Nat) (output : Nat) : OpResult :=
  let r := sendSeq ack (Msg.store id input output) (List.range numProcesses)
  ⟨r.1, if r.2 then st ++ [id] else st, r.2⟩

/-- Embedding of `EBTorchProcess.removeObject(id)`: broadcast the forget message with
`Promise.each`; the fulfillment handler runs
`allLoadedEntries.splice(allLoadedEntries.indexOf(id), 1)`. -/
def removeObject (ack : Nat → Msg → Bool) (numProcesses : Nat) (st : List String)
    (id : String) : OpResult :=
  let r := sendSeq ack (Msg.forget id) (List.range numProcesses)
  ⟨r.1, if r.2 then jsSpliceRemoveOne st (jsIndexOf id st) else st, r.2⟩

/-- Embedding of `EBTorchProcess.reset()`: broadcast `{type: "reset"}` with `Promise.each`,
waiting for `resetCompleted` from each worker; `allLoadedEntries` is not
touched. -/
def resetPool (ack : Nat → Msg → Bool) (numProcesses : Nat) (st : List String) :
    OpResult :=
  let r := sendSeq ack Msg.reset (List.range numProcesses)
  ⟨r.1, st, r.2⟩

/-- A residency-affecting operation issued against the pool. -/
inductive TorchOp where
  | load (id : String) (input : Nat) (output : Nat) : TorchOp
  | unload (id : String) : TorchOp
  | resetOp : TorchOp
deriving DecidableEq, Repr

/-- Run one operation against the current `allLoadedEntries` value. -/
def applyOp (ack : Nat → Msg → Bool) (numProcesses : Nat) (st : List String) :
    TorchOp → OpResult
  | TorchOp.load id input output => loadObject ack numProcesses st id input output
  | TorchOp.unload id => removeObject ack numProcesses st id
  | TorchOp.resetOp => resetPool ack numProcesses st

/-- The value of `allLoadedEntries` after a sequence of operations. -/
def runOps (ack : Nat → Msg → Bool) (numProcesses : Nat) :
    List TorchOp → List String → List String
  | [], st => st
  | op :: rest, st => runOps ack numProcesses rest (applyOp ack numProcesses st op).state

/-! ### startProcess -/

/-- The spawn invocation for one worker, as issued by
`EBStdioJSONStreamProcess.spawn('luajit', ['TrainingScript.lua', n + 1,
self.numProcesses], {cwd: self.scriptFolder, …})`. -/
structure SpawnCmd where
  prog : String
  args : List String
  cwd : String
deriving DecidableEq, Repr

/-- The spawn commands issued by the `async.times` loop of `startProcess`:
worker `n` of `N` runs `luajit TrainingScript.lua (n+1) N` in the shared
script folder. -/
def spawnCmds (scriptFolder : String) (numProcesses : Nat) : List SpawnCmd :=
  (List.range numProcesses).map
    (fun n => ⟨"luajit", ["TrainingScript.lua", toString (n + 1), toString numProcesses], scriptFolder⟩)

/-- The observable outcome of `startProcess`: the workers held in
`self.processes` afterwards (spawned and not killed), the handshake exchanges
performed, and whether the returned promise fulfilled. -/
structure StartResult where
  processes : List Nat
  trace : List Exchange
  ok : Bool
deriving DecidableEq, Repr

/-- Embedding of `EBTorchProcess.startProcess()`: `async.times` spawns all workers (every
successful spawn is pushed onto `self.processes`, and a spawn failure aborts
the `async.series` without killing the workers already spawned); then
`Promise.each` handshakes the spawned workers one at a time, a handshake
failure again rejecting without any cleanup.  `spawnOk n` tells whether the
spawn of worker `n` succeeds. -/
def startProcess (spawnOk : Nat → Bool) (ack : Nat → Msg → Bool)
    (numProcesses : Nat) : StartResult :=
  let procs := (List.range numProcesses).filter (fun n => spawnOk n)
  if (List.range numProcesses).all (fun n => spawnOk n) then
    let r := sendSeq ack Msg.handshake procs
    ⟨procs, r.1, r.2⟩
  else
    ⟨procs, [], false⟩

/-! ### processObjects (round-robin batch dispatch) -/

/-- An object returned by a worker's `evaluationCompleted` reply: its `id`
field plus the rest of the JSON record, abstracted as a natural. -/
structure EBObject where
  id : String
  payload : Nat
deriving DecidableEq, Repr

/-- Replace the element at position `i` (out-of-range indices leave the list
unchanged), as JavaScript `processBatches[index % N].samples.push(id)` updates
one bucket in place. -/
def modifyIdx (f : List String → List String) :
    List (List String) → Nat → List (List String)
  | [], _ => []
  | x :: xs, 0 => f x :: xs
  | x :: xs, Nat.succ n => x :: modifyIdx f xs n

/-- The `ids.forEach((id, index) => processBatches[index % length].samples.push(id))`
loop, with `index` running from `start`. -/
def distributeAux (numBuckets : Nat) (start : Nat) (buckets : List (List String)) :
    List String → List (List String)
  | [] => buckets
  | id :: rest =>
      distributeAux numBuckets (start + 1)
        (modifyIdx (fun b => b ++ [id]) buckets (start % numBuckets)) rest

/-- The `processBatches` array of `processObjects`: one bucket per worker,
ids pushed round-robin by position. -/
def processBatches (numProcesses : Nat) (ids : List String) : List (List String) :=
  distributeAux numProcesses 0 (List.replicate numProcesses []) ids

/-- The evaluate exchanges dispatched by `processObjects`: one per non-empty
bucket (the `async.map` body returns `{objects: []}` without writing to the
worker when `processBatch.samples.length === 0`), paired with the worker
index. -/
def evaluateExchanges (numProcesses : Nat) (ids : List String) :
    List (Nat × List String) :=
  ((processBatches numProcesses ids).enum.filter (fun p => !p.2.isEmpty)).map
    (fun p => (p.1, p.2))

/-- Sequential effectful map over a list, failing at the first error, as
`async.map`'s callback fires with the first error of its tasks. -/
def exceptMapM (f : α → Except String β) : List α → Except String (List β)
  | [] => Except.ok []
  | x :: xs =>
    match f x with
    | Except.error e => Except.error e
    | Except.ok y =>
      match exceptMapM f xs with
      | Except.error e => Except.error e
      | Except.ok ys => Except.ok (y :: ys)

/-- Embedding of `allResults[object.id] = object`: point update of the merged mapping. -/
def insertObj (m : String → Option EBObject) (o : EBObject) :
    String → Option EBObject :=
  fun k => if k = o.id then some o else m k

/-- The `allResults` mapping built by the nested `forEach` loops of
`processObjects`: every object of every worker's reply is written keyed by its
id, later writes overwriting earlier ones. -/
def mergeAll (objLists : List (List EBObject)) : String → Option EBObject :=
  objLists.foldl (fun m objs => objs.foldl insertObj m) (fun _ => none)

/-- The last object with the given id in a reply list (the one a JavaScript
object built by successive assignments retains). -/
def lookupLast (k : String) : List EBObject → Option EBObject
  | [] => none
  | o :: rest =>
    match lookupLast k rest with
    | some r => some r
    | none => if k = o.id then some o else none

/-- Embedding of `EBTorchProcess.processObjects(ids)`: partition the ids round-robin over
the workers, send one evaluate exchange per non-empty bucket, fail if any
exchange fails, and otherwise merge all returned objects into `allResults` and
answer `ids.map(id => allResults[id])` (a slot is `none` — JavaScript
`undefined` — when no worker returned an object with that id).
`workerEval w samples` is the object list of worker `w`'s
`evaluationCompleted` reply, or an error if the exchange fails. -/
def processObjects (numProcesses : Nat)
    (workerEval : Nat → List String → Except String (List EBObject))
    (ids : List String) : Except String (List (Option EBObject)) :=
  match exceptMapM
      (fun p => if p.2.isEmpty then Except.ok [] else workerEval p.1 p.2)
      (processBatches numProcesses ids).enum with
  | Except.error e => Except.error e
  | Except.ok results =>
    let allResults := mergeAll results
    Except.ok (ids.map (fun id => allResults id))

/-- All objects returned across the workers' replies, in dispatch order,
assuming every consulted exchange succeeds (`exceptGetD` below extracts the
reply). -/
def exceptGetD (e : Except String (List EBObject)) : List EBObject :=
  match e with
  | Except.ok v => v
  | Except.error _ => []

/-- The concatenation of every worker's returned objects for a dispatch,
used to describe the merged `allResults` mapping. -/
def allReplied (numProcesses : Nat)
    (workerEval : Nat → List String → Except String (List EBObject))
    (ids : List String) : List EBObject :=
  ((processBatches numProcesses ids).enum.map
    (fun p => if p.2.isEmpty then [] else exceptGetD (workerEval p.1 p.2))).flatten

/-! ### Single-worker operations -/

/-- Embedding of `EBTorchProcess.processBatch(batchFilename)`: exactly one exchange, written
to `this.processes[0]` — no other worker is consulted whatever the pool
size. -/
def processBatchTrace (batchFilename : String) : List Exchange :=
  [⟨0, Msg.evaluateBatch batchFilename, "evaluationCompleted"⟩]

/-- Embedding of `EBTorchProcess.executeTrainingIteration(batchFilename)`: exactly one
exchange, written to `this.processes[0]`. -/
def executeTrainingIterationTrace (batchFilename : String) : List Exchange :=
  [⟨0, Msg.iteration batchFilename, "iterationCompleted"⟩]

/-! ### extractNetworkDiagrams -/

/-- Constant `const retryAttempts = 100`. -/
def retryAttempts : Nat := 100

/-- Constant `const timeoutBetweenRetries = 150` (milliseconds). -/
def timeoutBetweenRetries : Nat := 150

/-- Constant `const maxBufferSize = 10 * 1024 * 1024`. -/
def maxBufferSize : Nat := 10 * 1024 * 1024

/-- The test `(/^.*\.dot$/g).test(file)` on a newline-free filename: the name
ends in `.dot` (the last four characters, read back to front, are `t`, `o`,
`d`, `.`). -/
def isDotFile (file : String) : Bool :=
  file.data.reverse.take 4 == ['t', 'o', 'd', '.']

/-- One rendered diagram as resolved by `extractNetworkDiagrams`: the `.dot`
filename together with the (base64-encoded, kept abstract) output of the
external `dot` invocation. -/
structure DiagramFile where
  file : String
  data : String
deriving DecidableEq, Repr

/-- One attempt of the `async.retry` task: read the script folder at attempt
`k` (`filesAt k` abstracts the directory listing), filter for `.dot` files;
when none are present, wait `timeoutBetweenRetries` ms and fail; otherwise
render every file via `async.map` over the external `dot` invocation
(`render`), which fails the whole attempt at the first file whose invocation
errors.  Returns the delay spent in the attempt and its result. -/
def diagramAttempt (filesAt : Nat → List String)
    (render : String → Except String String) (k : Nat) :
    Nat × Except String (List DiagramFile) :=
  let dotFiles := (filesAt k).filter isDotFile
  if dotFiles.isEmpty then
    (timeoutBetweenRetries, Except.error "Could not find any architectural diagrams")
  else
    (0, exceptMapM
          (fun f =>
            match render f with
            | Except.ok svg => Except.ok (⟨f, svg⟩ : DiagramFile)
            | Except.error e => Except.error e)
          dotFiles)

/-- Embedding of `async.retry(budget, task)` starting at attempt index `k`: run the task
until it succeeds or the budget is exhausted, reporting the number of attempts
made, the total delay spent, and the final result (the last attempt's
error). -/
def retryAux (task : Nat → Nat × Except String α) (k : Nat) :
    Nat → Nat × Nat × Except String α
  | 0 => (0, 0, Except.error "")
  | 1 =>
    let r := task k
    (1, r.1, r.2)
  | Nat.succ (Nat.succ n) =>
    let r := task k
    match r.2 with
    | Except.ok v => (1, r.1, Except.ok v)
    | Except.error _ =>
      let rest := retryAux task (k + 1) (Nat.succ n)
      (rest.1 + 1, r.1 + rest.2.1, rest.2.2)

/-- Embedding of `EBTorchProcess.extractNetworkDiagrams()`: retry the diagram attempt up to
`retryAttempts` times.  Returns `(attempts made, total delay in ms, result)`. -/
def extractNetworkDiagrams (filesAt : Nat → List String)
    (render : String → Except String String) :
    Nat × Nat × Except String (List DiagramFile) :=
  retryAux (diagramAttempt filesAt render) 0 retryAttempts

/-! ### Lemmas about the sequential broadcast -/

theorem sendSeq_ok_iff (ack : Nat → Msg → Bool) (m : Msg) (ws : List Nat) :
    (sendSeq ack m ws).2 = true ↔ ∀ w ∈ ws, ack w m = true := by
  induction ws with
  | nil => simp [sendSeq]
  | cons w ws ih =>
    by_cases h : ack w m = true
    · simp [sendSeq, h, ih]
    · simp [sendSeq, h]

theorem sendSeq_trace_of_ok (ack : Nat → Msg → Bool) (m : Msg) (ws : List Nat)
    (h : (sendSeq ack m ws).2 = true) :
    (sendSeq ack m ws).1 = ws.map (fun w => Exchange.mk w m (expectedReplyTag m)) := by
  induction ws with
  | nil => simp [sendSeq]
  | cons w ws ih =>
    by_cases hw : ack w m = true
    · simp [sendSeq, hw] at h ⊢
      exact ih h
    · simp [sendSeq, hw] at h

theorem sendSeq_trace_prefix (ack : Nat → Msg → Bool) (m : Msg) (ws : List Nat) :
    ∃ k, k ≤ ws.length ∧
      (sendSeq ack m ws).1 =
        (ws.take k).map (fun w => Exchange.mk w m (expectedReplyTag m)) := by
  induction ws with
  | nil => exact ⟨0, by simp, by simp [sendSeq]⟩
  | cons w ws ih =>
    by_cases hw : ack w m = true
    · obtain ⟨k, hk, htr⟩ := ih
      refine ⟨k + 1, by simpa using hk, ?_⟩
      simp [sendSeq, hw, htr]
    · refine ⟨1, by simp, ?_⟩
      simp [sendSeq, hw]

theorem sentTo_append (w : Nat) (t1 t2 : List Exchange) :
    sentTo w (t1 ++ t2) = sentTo w t1 ++ sentTo w t2 := by
  simp [sentTo, List.filter_append]

theorem sentTo_broadcast (w numProcesses : Nat) (m : Msg) :
    sentTo w ((List.range numProcesses).map
        (fun v => Exchange.mk v m (expectedReplyTag m))) =
      if w < numProcesses then [Exchange.mk w m (expectedReplyTag m)] else [] := by
  induction numProcesses with
  | zero => simp [sentTo]
  | succ n ih =>
    rw [List.range_succ, List.map_append]
    rw [sentTo_append, ih]
    by_cases h : w = n
    · subst h
      simp [sentTo, Nat.lt_irrefl, Nat.lt_succ_self]
    · by_cases h2 : w < n
      · simp [sentTo, h2, Nat.lt_succ_of_lt h2, Ne.symm h]
      · have h3 : ¬w < n + 1 := by omega
        simp [sentTo, h2, h3, Ne.symm h]

/-! ### Lemmas about the JavaScript residency-record splice -/

theorem jsIndexOf_eq_neg_one (id : String) (st : List String) (h : id ∉ st) :
    jsIndexOf id st = -1 := by
  induction st with
  | nil => rfl
  | cons y ys ih =>
    simp only [List.mem_cons, not_or] at h
    simp [jsIndexOf, Ne.symm h.1, ih h.2]

theorem jsIndexOf_append_self (id : String) (st : List String) (h : id ∉ st) :
    jsIndexOf id (st ++ [id]) = (st.length : Int) := by
  induction st with
  | nil => simp [jsIndexOf]
  | cons y ys ih =>
    simp only [List.mem_cons, not_or] at h
    have hY : ¬(y = id) := Ne.symm h.1
    have hys := ih h.2
    have hne : (ys.length : Int) ≠ -1 := by omega
    simp [jsIndexOf, hY, hys, hne]

theorem jsSplice_at_length_append (st : List String) (id : String) :
    jsSpliceRemoveOne (st ++ [id]) (st.length : Int) = st := by
  unfold jsSpliceRemoveOne
  have h1 : ¬((st.length : Int) < 0) := by omega
  have h2 : min (st.length : Int) (((st ++ [id]).length : Int)) =
      (st.length : Int) := by
    simp [List.length_append]
  simp only [h1, if_false, h2]
  have h3 : ((st.length : Int)).toNat = st.length := rfl
  rw [h3]
  have h4 : (st ++ [id]).take st.length = st := List.take_left st [id]
  have h5 : st.length + 1 = (st ++ [id]).length := by simp
  rw [h4, h5, List.drop_length, List.append_nil]

theorem jsSplice_neg_one (st : List String) :
    jsSpliceRemoveOne st (-1) = st.dropLast := by
  cases st with
  | nil => rfl
  | cons y ys =>
    unfold jsSpliceRemoveOne
    have h1 : (-1 : Int) < 0 := by omega
    have h2 : max (((y :: ys).length : Int) + -1) 0 = (ys.length : Int) := by
      simp [List.length_cons]
    simp only [h1, if_true, h2]
    have h3 : ((ys.length : Int)).toNat = ys.length := rfl
    rw [h3]
    have h4 : (y :: ys).drop (ys.length + 1) = [] := by
      have : ys.length + 1 = (y :: ys).length := by simp
      rw [this, List.drop_length]
    rw [h4, List.append_nil]
    have h5 : (y :: ys).dropLast = (y :: ys).take ((y :: ys).length - 1) := by
      rw [List.dropLast_eq_take]
    simp at h5
    rw [h5]

/-! ### Lemmas about operation sequences -/

theorem runOps_append (ack : Nat → Msg → Bool) (numProcesses : Nat)
    (ops1 ops2 : List TorchOp) (st : List String) :
    runOps ack numProcesses (ops1 ++ ops2) st =
      runOps ack numProcesses ops2 (runOps ack numProcesses ops1 st) := by
  induction ops1 generalizing st with
  | nil => simp [runOps]
  | cons op rest ih => simp [runOps, ih]

/-! ### Lemmas about round-robin partitioning -/

theorem modifyIdx_length (f : List String → List String)
    (l : List (List String)) (i : Nat) : (modifyIdx f l i).length = l.length := by
  induction l generalizing i with
  | nil => rfl
  | cons x xs ih =>
    cases i with
    | zero => rfl
    | succ n => simp [modifyIdx, ih]

theorem modifyIdx_getElem? (f : List String → List String)
    (l : List (List String)) (i j : Nat) :
    (modifyIdx f l i)[j]? = if j = i then (l[j]?).map f else l[j]? := by
  induction l generalizing i j with
  | nil => simp [modifyIdx]
  | cons x xs ih =>
    cases i with
    | zero =>
      cases j with
      | zero => simp [modifyIdx]
      | succ j => simp [modifyIdx]
    | succ i =>
      cases j with
      | zero => simp [modifyIdx]
      | succ j => simpa [modifyIdx] using ih i j

theorem distributeAux_length (numBuckets start : Nat) (buckets : List (List String))
    (ids : List String) :
    (distributeAux numBuckets start buckets ids).length = buckets.length := by
  induction ids generalizing start buckets with
  | nil => rfl
  | cons id rest ih => simp [distributeAux, ih, modifyIdx_length]

/-- The ids of `ids` whose running index (counted from `start`) lands in
bucket `w` modulo `numBuckets`, in order: the contents `processObjects`'
forEach loop pushes into that bucket. -/
def sieve (numBuckets w : Nat) : Nat → List String → List String
  | _, [] => []
  | start, id :: rest =>
    if start % numBuckets = w then id :: sieve numBuckets w (start + 1) rest
    else sieve numBuckets w (start + 1) rest

theorem distributeAux_getElem? (numBuckets : Nat) (hnb : 0 < numBuckets)
    (ids : List String) :
    ∀ (start : Nat) (buckets : List (List String)),
      buckets.length = numBuckets → ∀ w : Nat,
      (distributeAux numBuckets start buckets ids)[w]? =
        (buckets[w]?).map (fun b => b ++ sieve numBuckets w start ids) := by
  induction ids with
  | nil =>
    intro start buckets hlen w
    simp [distributeAux, sieve]
  | cons id rest ih =>
    intro start buckets hlen w
    have hlt : start % numBuckets < numBuckets := Nat.mod_lt _ hnb
    have hlen2 : (modifyIdx (fun b => b ++ [id]) buckets (start % numBuckets)).length
        = numBuckets := by rw [modifyIdx_length, hlen]
    rw [distributeAux, ih (start + 1) _ hlen2 w, modifyIdx_getElem?]
    by_cases hw : w = start % numBuckets
    · subst hw
      rw [if_pos rfl]
      have hs : sieve numBuckets (start % numBuckets) start (id :: rest) =
          id :: sieve numBuckets (start % numBuckets) (start + 1) rest := by
        rw [sieve, if_pos rfl]
      rw [hs]
      cases buckets[start % numBuckets]? <;> simp
    · rw [if_neg hw]
      have hs : sieve numBuckets w start (id :: rest) =
          sieve numBuckets w (start + 1) rest := by
        rw [sieve, if_neg (fun hc => hw hc.symm)]
      rw [hs]

theorem processBatches_length (numProcesses : Nat) (ids : List String) :
    (processBatches numProcesses ids).length = numProcesses := by
  rw [processBatches, distributeAux_length, List.length_replicate]

theorem processBatches_getElem? (numProcesses : Nat) (hnp : 0 < numProcesses)
    (ids : List String) (w : Nat) (hw : w < numProcesses) :
    (processBatches numProcesses ids)[w]? = some (sieve numProcesses w 0 ids) := by
  rw [processBatches,
    distributeAux_getElem? numProcesses hnp ids 0 _ (List.length_replicate _ _) w]
  rw [List.getElem?_replicate, if_pos hw]
  simp

theorem sieve_mem (numBuckets w : Nat) (ids : List String) :
    ∀ (start i : Nat) (hi : i < ids.length),
      (start + i) % numBuckets = w →
      ids.get ⟨i, hi⟩ ∈ sieve numBuckets w start ids := by
  induction ids with
  | nil => intro start i hi; simp at hi
  | cons id rest ih =>
    intro start i hi hmod
    cases i with
    | zero =>
      rw [sieve, if_pos (by simpa using hmod)]
      simp
    | succ i =>
      have hrec := ih (start + 1) i (by simpa using hi)
        (by rw [← hmod]; congr 1; omega)
      rw [sieve]
      by_cases hs : start % numBuckets = w
      · rw [if_pos hs]
        simpa using List.mem_cons_of_mem _ hrec
      · rw [if_neg hs]
        simpa using hrec

theorem sieve_eq_enumFrom_filter (numBuckets w : Nat) (ids : List String) :
    ∀ start : Nat,
      sieve numBuckets w start ids =
        ((ids.enumFrom start).filter (fun p => p.1 % numBuckets == w)).map Prod.snd := by
  induction ids with
  | nil => intro start; rfl
  | cons id rest ih =>
    intro start
    rw [List.enumFrom]
    by_cases hs : start % numBuckets = w
    · rw [sieve, if_pos hs]
      rw [List.filter_cons_of_pos (by simpa using hs)]
      simp [ih]
    · rw [sieve, if_neg hs]
      rw [List.filter_cons_of_neg (by simpa using hs)]
      exact ih (start + 1)

/-! ### Lemmas about the merged result mapping -/

theorem foldl_insertObj (l : List EBObject) :
    ∀ (m : String → Option EBObject) (k : String),
      (l.foldl insertObj m) k =
        match lookupLast k l with
        | some o => some o
        | none => m k := by
  induction l with
  | nil => intro m k; rfl
  | cons o rest ih =>
    intro m k
    rw [List.foldl_cons, ih, lookupLast]
    cases hr : lookupLast k rest with
    | some r => rfl
    | none =>
      by_cases hk : k = o.id
      · simp [insertObj, hk]
      · simp [insertObj, hk]

theorem mergeAll_eq_lookupLast (objLists : List (List EBObject)) (k : String) :
    mergeAll objLists k = lookupLast k objLists.flatten := by
  rw [mergeAll, ← List.foldl_flatten, foldl_insertObj]
  cases lookupLast k objLists.flatten <;> rfl

theorem lookupLast_eq_some (k : String) (l : List EBObject) (o : EBObject)
    (h : lookupLast k l = some o) : o ∈ l ∧ o.id = k := by
  induction l with
  | nil => cases h
  | cons x rest ih =>
    rw [lookupLast] at h
    cases hr : lookupLast k rest with
    | some r =>
      rw [hr] at h
      cases h
      exact ⟨List.mem_cons_of_mem _ (ih hr).1, (ih hr).2⟩
    | none =>
      rw [hr] at h
      by_cases hk : k = x.id
      · rw [if_pos hk] at h
        cases h
        exact ⟨List.mem_cons_self _ _, hk.symm⟩
      · rw [if_neg hk] at h
        cases h

theorem lookupLast_eq_none_iff (k : String) (l : List EBObject) :
    lookupLast k l = none ↔ ∀ o ∈ l, o.id ≠ k := by
  induction l with
  | nil => simp [lookupLast]
  | cons x rest ih =>
    rw [lookupLast]
    cases hr : lookupLast k rest with
    | some r =>
      have hsome := lookupLast_eq_some k rest r hr
      simp only [List.mem_cons]
      constructor
      · intro h; cases h
      · intro h
        exact absurd hsome.2 (h r (Or.inr hsome.1))
    | none =>
      by_cases hk : k = x.id
      · rw [if_pos hk]
        simp only [List.mem_cons]
        constructor
        · intro h; cases h
        · intro h
          exact absurd hk.symm (h x (Or.inl rfl))
      · rw [if_neg hk]
        simp only [List.mem_cons]
        constructor
        · intro _ o ho
          cases ho with
          | inl h1 => subst h1; exact fun hc => hk hc.symm
          | inr h2 => exact (ih.mp hr) o h2
        · intro _; trivial

/-! ### Lemmas about the effectful map -/

theorem exceptMapM_ok_of_all (f : α → Except String (List EBObject)) (l : List α)
    (h : ∀ x ∈ l, ∃ y, f x = Except.ok y) :
    exceptMapM f l = Except.ok (l.map (fun x => exceptGetD (f x))) := by
  induction l with
  | nil => rfl
  | cons x xs ih =>
    obtain ⟨y, hy⟩ := h x (List.mem_cons_self _ _)
    rw [exceptMapM, hy, ih (fun z hz => h z (List.mem_cons_of_mem _ hz))]
    simp [exceptGetD, hy]

theorem exceptMapM_not_ok {β : Type} (f : α → Except String β) (l : List α)
    (x : α) (hx : x ∈ l) (hfx : (f x).isOk = false) :
    (exceptMapM f l).isOk = false := by
  induction l with
  | nil => cases hx
  | cons z zs ih =>
    rw [exceptMapM]
    cases hz : f z with
    | error e => rfl
    | ok y =>
      rcases List.mem_cons.mp hx with h1 | h2
      · subst h1
        rw [hz] at hfx
        exact absurd hfx (by simp [Except.isOk, Except.toBool])
      · have hrec := ih h2
        cases hm : exceptMapM f zs with
        | error e => rfl
        | ok ys =>
          rw [hm] at hrec
          exact absurd hrec (by simp [Except.isOk, Except.toBool])

/-! ### Lemmas about the retry loop -/

theorem retryAux_const_error {α : Type} (task : Nat → Nat × Except String α)
    (d : Nat) (e : String) (h : ∀ k, task k = (d, Except.error e)) :
    ∀ (b : Nat), 1 ≤ b → ∀ k, retryAux task k b = (b, b * d, Except.error e) := by
  intro b
  induction b with
  | zero => intro hb; omega
  | succ n ih =>
    intro _ k
    cases n with
    | zero =>
      rw [retryAux, h k]
      simp
    | succ m =>
      rw [retryAux, h k, ih (by omega) (k + 1)]
      simp
      ring

theorem retryAux_attempts {α : Type} (task : Nat → Nat × Except String α) :
    ∀ (b : Nat) (k : Nat),
      (retryAux task k b).1 ≤ b ∧ (1 ≤ b → 1 ≤ (retryAux task k b).1) := by
  intro b
  induction b with
  | zero => intro k; simp [retryAux]
  | succ n ih =>
    intro k
    cases n with
    | zero => simp [retryAux]
    | succ m =>
      rw [retryAux]
      cases hr : (task k).2 with
      | ok v => simp
      | error e =>
        have := (ih (k + 1)).1
        constructor
        · simp
          omega
        · intro _
          simp

theorem retryAux_all_fail {α : Type} (task : Nat → Nat × Except String α)
    (h : ∀ k, ((task k).2).isOk = false) :
    ∀ (b : Nat), 1 ≤ b → ∀ k,
      (retryAux task k b).1 = b ∧ ((retryAux task k b).2.2).isOk = false := by
  intro b
  induction b with
  | zero => intro hb; omega
  | succ n ih =>
    intro _ k
    cases n with
    | zero =>
      rw [retryAux]
      exact ⟨rfl, h k⟩
    | succ m =>
      rw [retryAux]
      cases hr : (task k).2 with
      | ok v =>
        have hv := h k
        rw [hr] at hv
        exact absurd hv (by simp [Except.isOk, Except.toBool])
      | error e =>
        have hrec := ih (by omega) (k + 1)
        simp
        exact ⟨hrec.1, hrec.2⟩

/-! ### Claim theorems -/

/-- C2: `processObjects` partitions the requested ids round-robin — bucket `w`
holds exactly the ids whose position is congruent to `w` modulo the pool size,
so `ids[i]` is assigned to worker `i % N` — and an evaluate exchange is
dispatched only for non-empty buckets; concretely, with 3 workers
`evaluate(["a","b","c","d"])` sends `["a","d"]` to worker 0, `["b"]` to
worker 1 and `["c"]` to worker 2, and with 2 workers `evaluate([])` sends
zero exchanges and resolves with `[]`. -/
theorem C2_round_robin_partition (numProcesses : Nat) (hN : 1 ≤ numProcesses)
    (ids : List String) :
    (∀ w : Nat, w < numProcesses →
      (processBatches numProcesses ids)[w]? =
        some ((ids.enum.filter (fun p => p.1 % numProcesses == w)).map Prod.snd)) ∧
    (∀ i (hi : i < ids.length),
      ids.get ⟨i, hi⟩ ∈ (processBatches numProcesses ids).getD (i % numProcesses) []) ∧
    (∀ p ∈ evaluateExchanges numProcesses ids, p.2 ≠ []) ∧
    evaluateExchanges 3 ["a", "b", "c", "d"] =
      [(0, ["a", "d"]), (1, ["b"]), (2, ["c"])] ∧
    evaluateExchanges 2 [] = [] ∧
    (∀ workerEval, processObjects 2 workerEval [] = Except.ok []) := by
  have hpos : 0 < numProcesses := hN
  refine ⟨?_, ?_, ?_, by decide, by decide, fun workerEval => rfl⟩
  · intro w hw
    rw [processBatches_getElem? numProcesses hpos ids w hw,
      sieve_eq_enumFrom_filter numProcesses w ids 0]
    rfl
  · intro i hi
    have hm : i % numProcesses < numProcesses := Nat.mod_lt _ hpos
    rw [List.getD_eq_getElem?_getD,
      processBatches_getElem? numProcesses hpos ids _ hm]
    exact sieve_mem numProcesses (i % numProcesses) ids 0 i hi (by simp)
  · intro p hp
    rw [evaluateExchanges] at hp
    obtain ⟨q, hq, hpq⟩ := List.mem_map.mp hp
    have hfil := List.of_mem_filter hq
    subst hpq
    simp only [Bool.not_eq_true'] at hfil
    intro hc
    rw [hc] at hfil
    simp at hfil

/-- Witness for C2: the concrete 3-worker dispatch of the claim, via the
theorem. -/
theorem C2_round_robin_partition_witness :
    evaluateExchanges 3 ["a", "b", "c", "d"] =
      [(0, ["a", "d"]), (1, ["b"]), (2, ["c"])] :=
  (C2_round_robin_partition 3 (by decide) ["a", "b", "c", "d"]).2.2.2.1

theorem exceptMapM_ok_map {α : Type} (f : α → Except String (List EBObject))
    (l : List α) (r : List (List EBObject)) (h : exceptMapM f l = Except.ok r) :
    r = l.map (fun x => exceptGetD (f x)) := by
  induction l generalizing r with
  | nil =>
    rw [exceptMapM] at h
    cases h
    rfl
  | cons x xs ih =>
    rw [exceptMapM] at h
    cases hx : f x with
    | error e =>
      rw [hx] at h
      cases h
    | ok y =>
      rw [hx] at h
      cases hm : exceptMapM f xs with
      | error e =>
        rw [hm] at h
        cases h
      | ok ys =>
        rw [hm] at h
        cases h
        simp [exceptGetD, hx, ih ys hm]

/-- C1: whenever `processObjects(ids)` resolves, the result has exactly one
slot per requested id, in the order of `ids`; slot `i` is the merged-mapping
entry for `ids[i]` — an object some worker returned whose id equals `ids[i]`
(the last such in merge order) — and is `none` (JavaScript `undefined`)
exactly when no worker returned an object with that id. -/
theorem C1_processObjects_shape (numProcesses : Nat) (hN : 1 ≤ numProcesses)
    (workerEval : Nat → List String → Except String (List EBObject))
    (ids : List String) (res : List (Option EBObject))
    (h : processObjects numProcesses workerEval ids = Except.ok res) :
    res.length = ids.length ∧
    ∀ i (hi : i < ids.length) (hri : i < res.length),
      res.get ⟨i, hri⟩ =
        lookupLast (ids.get ⟨i, hi⟩) (allReplied numProcesses workerEval ids) ∧
      (∀ o, res.get ⟨i, hri⟩ = some o →
        o.id = ids.get ⟨i, hi⟩ ∧ o ∈ allReplied numProcesses workerEval ids) ∧
      (res.get ⟨i, hri⟩ = none ↔
        ∀ o ∈ allReplied numProcesses workerEval ids, o.id ≠ ids.get ⟨i, hi⟩) := by
  rw [processObjects] at h
  cases hm : exceptMapM
      (fun p => if p.2.isEmpty then Except.ok [] else workerEval p.1 p.2)
      (processBatches numProcesses ids).enum with
  | error e =>
    rw [hm] at h
    cases h
  | ok results =>
    rw [hm] at h
    have h2 : Except.ok (ids.map (fun id => mergeAll results id)) =
        (Except.ok res : Except String (List (Option EBObject))) := h
    injection h2 with hres
    have hresults := exceptMapM_ok_map _ _ _ hm
    have hflat : results.flatten = allReplied numProcesses workerEval ids := by
      rw [hresults, allReplied]
      congr 1
      apply List.map_congr_left
      intro p _
      by_cases hp : p.2.isEmpty <;> simp [hp, exceptGetD]
    subst hres
    constructor
    · exact List.length_map _ _
    · intro i hi hri
      have hget : (ids.map (fun id => mergeAll results id)).get ⟨i, hri⟩ =
          mergeAll results (ids.get ⟨i, hi⟩) := by
        simp [List.get_eq_getElem, List.getElem_map]
      rw [hget, mergeAll_eq_lookupLast, hflat]
      refine ⟨rfl, ?_, ?_⟩
      · intro o ho
        have hs := lookupLast_eq_some _ _ _ ho
        exact ⟨hs.2, hs.1⟩
      · exact lookupLast_eq_none_iff _ _

/-- Witness for C1: a 2-worker pool where each worker echoes its samples; the
resolved list has one slot per requested id. -/
theorem C1_processObjects_shape_witness :
    ([some (EBObject.mk "a" 0), some (EBObject.mk "b" 1), some (EBObject.mk "c" 0)] :
      List (Option EBObject)).length = (["a", "b", "c"] : List String).length :=
  (C1_processObjects_shape 2 (by decide)
    (fun w samples => Except.ok (samples.map (fun s => EBObject.mk s w)))
    ["a", "b", "c"]
    [some (EBObject.mk "a" 0), some (EBObject.mk "b" 1), some (EBObject.mk "c" 0)]
    rfl).1

/-- C3: `loadObject` sends the store exchange to the workers one at a time in
index order (the trace is always an initial segment of the pool in order), it
resolves exactly when every worker replied `stored`, in which case every
worker got the exchange and `id` was appended to `allLoadedEntries`; if any
worker's exchange fails the promise rejects and the residency record is left
untouched, so `id` is never added. -/
theorem C3_loadObject_broadcast (ack : Nat → Msg → Bool) (numProcesses : Nat)
    (st : List String) (id : String) (input output : Nat) :
    ((loadObject ack numProcesses st id input output).ok = true ↔
      ∀ n < numProcesses, ack n (Msg.store id input output) = true) ∧
    (∃ k, k ≤ numProcesses ∧
      (loadObject ack numProcesses st id input output).trace =
        ((List.range numProcesses).take k).map
          (fun n => Exchange.mk n (Msg.store id input output) "stored")) ∧
    ((loadObject ack numProcesses st id input output).ok = true →
      (loadObject ack numProcesses st id input output).trace =
        (List.range numProcesses).map
          (fun n => Exchange.mk n (Msg.store id input output) "stored") ∧
      (loadObject ack numProcesses st id input output).state = st ++ [id]) ∧
    ((loadObject ack numProcesses st id input output).ok = false →
      (loadObject ack numProcesses st id input output).state = st ∧
      (id ∉ st → id ∉ (loadObject ack numProcesses st id input output).state)) := by
  refine ⟨?_, ?_, ?_, ?_⟩
  · rw [show (loadObject ack numProcesses st id input output).ok =
        (sendSeq ack (Msg.store id input output) (List.range numProcesses)).2 from rfl,
      sendSeq_ok_iff]
    constructor
    · intro h n hn
      exact h n (List.mem_range.mpr hn)
    · intro h n hn
      exact h n (List.mem_range.mp hn)
  · obtain ⟨k, hk, htr⟩ :=
      sendSeq_trace_prefix ack (Msg.store id input output) (List.range numProcesses)
    exact ⟨k, by simpa using hk, htr⟩
  · intro hok
    have htr := sendSeq_trace_of_ok ack (Msg.store id input output)
      (List.range numProcesses) hok
    constructor
    · exact htr
    · have hb : (sendSeq ack (Msg.store id input output)
          (List.range numProcesses)).2 = true := hok
      simp only [loadObject]
      rw [if_pos hb]
  · intro hbad
    have hb : (sendSeq ack (Msg.store id input output)
        (List.range numProcesses)).2 = false := hbad
    have hst : (loadObject ack numProcesses st id input output).state = st := by
      simp only [loadObject]
      rw [hb]
      simp
    exact ⟨hst, fun hid => by rw [hst]; exact hid⟩

/-- Witness for C3: a 2-worker pool where every exchange succeeds records the
id after the broadcast. -/
theorem C3_loadObject_broadcast_witness :
    (loadObject (fun _ _ => true) 2 [] "a" 0 0).state = [] ++ ["a"] :=
  ((C3_loadObject_broadcast (fun _ _ => true) 2 [] "a" 0 0).2.2.1 (by decide)).2

/-- C4 counterexample: pool of 2 where worker 1 fails to spawn — startup
rejects, but worker 0 was spawned, pushed onto `self.processes` and never
killed, so a partial pool of live workers remains, contradicting the claim
that no partial pool is left running. -/
theorem C4_counterexample :
    (startProcess (fun n => n == 0) (fun _ _ => true) 2).ok = false ∧
    (startProcess (fun n => n == 0) (fun _ _ => true) 2).processes = [0] ∧
    (startProcess (fun n => n == 0) (fun _ _ => true) 2).processes ≠ [] := by
  decide

/-- C4 (amended): `startProcess` spawns the configured number of identical
`luajit` workers rooted at the shared script folder, resolves exactly when
every worker spawned and handshook (in which case every worker performed the
handshake exchange), and rejects the startup if any single worker fails to
spawn or handshake — but the workers that did spawn stay in `self.processes`
and are left running (no cleanup of the partial pool). -/
theorem C4_startProcess (spawnOk : Nat → Bool) (ack : Nat → Msg → Bool)
    (scriptFolder : String) (numProcesses : Nat) :
    ((spawnCmds scriptFolder numProcesses).length = numProcesses ∧
      ∀ c ∈ spawnCmds scriptFolder numProcesses,
        c.prog = "luajit" ∧ c.cwd = scriptFolder) ∧
    ((startProcess spawnOk ack numProcesses).ok = true ↔
      (∀ n < numProcesses, spawnOk n = true) ∧
      (∀ n < numProcesses, ack n Msg.handshake = true)) ∧
    ((startProcess spawnOk ack numProcesses).ok = true →
      (startProcess spawnOk ack numProcesses).trace =
        (List.range numProcesses).map
          (fun n => Exchange.mk n Msg.handshake "handshake") ∧
      (startProcess spawnOk ack numProcesses).processes = List.range numProcesses) ∧
    ((startProcess spawnOk ack numProcesses).ok = false →
      (startProcess spawnOk ack numProcesses).processes =
        (List.range numProcesses).filter (fun n => spawnOk n)) := by
  by_cases hall : (List.range numProcesses).all (fun n => spawnOk n) = true
  · have hfil : (List.range numProcesses).filter (fun n => spawnOk n) =
        List.range numProcesses := by
      apply List.filter_eq_self.mpr
      intro n hn
      exact (List.all_eq_true.mp hall) n hn
    have hsp : startProcess spawnOk ack numProcesses =
        ⟨List.range numProcesses,
          (sendSeq ack Msg.handshake (List.range numProcesses)).1,
          (sendSeq ack Msg.handshake (List.range numProcesses)).2⟩ := by
      rw [startProcess, if_pos hall, hfil]
    refine ⟨⟨by simp [spawnCmds], ?_⟩, ?_, ?_, ?_⟩
    · intro c hc
      obtain ⟨n, _, hcn⟩ := List.mem_map.mp hc
      rw [← hcn]
      exact ⟨rfl, rfl⟩
    · rw [hsp]
      rw [show (StartResult.mk (List.range numProcesses)
          (sendSeq ack Msg.handshake (List.range numProcesses)).1
          (sendSeq ack Msg.handshake (List.range numProcesses)).2).ok =
        (sendSeq ack Msg.handshake (List.range numProcesses)).2 from rfl]
      rw [sendSeq_ok_iff]
      constructor
      · intro h
        refine ⟨fun n hn => (List.all_eq_true.mp hall) n (List.mem_range.mpr hn), ?_⟩
        intro n hn
        exact h n (List.mem_range.mpr hn)
      · intro h n hn
        exact h.2 n (List.mem_range.mp hn)
    · intro hok
      rw [hsp] at hok ⊢
      exact ⟨sendSeq_trace_of_ok ack Msg.handshake (List.range numProcesses) hok, rfl⟩
    · intro _
      rw [hsp, hfil]
  · have hsp : startProcess spawnOk ack numProcesses =
        ⟨(List.range numProcesses).filter (fun n => spawnOk n), [], false⟩ := by
      rw [startProcess, if_neg hall]
    have hbadspawn : ¬∀ n < numProcesses, spawnOk n = true := by
      intro hc
      exact hall (List.all_eq_true.mpr (fun n hn => hc n (List.mem_range.mp hn)))
    refine ⟨⟨by simp [spawnCmds], ?_⟩, ?_, ?_, ?_⟩
    · intro c hc
      obtain ⟨n, _, hcn⟩ := List.mem_map.mp hc
      rw [← hcn]
      exact ⟨rfl, rfl⟩
    · rw [hsp]
      simp only []
      constructor
      · intro h
        cases h
      · intro h
        exact absurd h.1 hbadspawn
    · intro hok
      rw [hsp] at hok
      cases hok
    · intro _
      rw [hsp]

/-- Witness for C4 (amended): with every spawn and handshake succeeding on a
pool of 2, startup resolves and both workers were handshaked. -/
theorem C4_startProcess_witness :
    (startProcess (fun _ => true) (fun _ _ => true) 2).processes = List.range 2 :=
  ((C4_startProcess (fun _ => true) (fun _ _ => true) "scripts" 2).2.2.1 (by decide)).2

/-- C5: for an id not currently resident, a successful `loadObject` followed
by a successful `removeObject` restores `allLoadedEntries` to its prior value,
and every worker received the store exchange for the id followed by the
forget exchange for the id. -/
theorem C5_load_unload_roundtrip (ack : Nat → Msg → Bool) (numProcesses : Nat)
    (st : List String) (id : String) (input output : Nat)
    (hid : id ∉ st)
    (hl : (loadObject ack numProcesses st id input output).ok = true)
    (hr : (removeObject ack numProcesses
        (loadObject ack numProcesses st id input output).state id).ok = true) :
    (removeObject ack numProcesses
        (loadObject ack numProcesses st id input output).state id).state = st ∧
    ∀ w < numProcesses,
      sentTo w ((loadObject ack numProcesses st id input output).trace ++
          (removeObject ack numProcesses
            (loadObject ack numProcesses st id input output).state id).trace) =
        [Exchange.mk w (Msg.store id input output) "stored",
         Exchange.mk w (Msg.forget id) "forgotten"] := by
  have hlstate : (loadObject ack numProcesses st id input output).state =
      st ++ [id] := by
    have hb : (sendSeq ack (Msg.store id input output)
        (List.range numProcesses)).2 = true := hl
    simp only [loadObject]
    rw [if_pos hb]
  have hltrace : (loadObject ack numProcesses st id input output).trace =
      (List.range numProcesses).map
        (fun n => Exchange.mk n (Msg.store id input output) "stored") :=
    sendSeq_trace_of_ok ack (Msg.store id input output) (List.range numProcesses) hl
  rw [hlstate] at hr ⊢
  have hrtrace : (removeObject ack numProcesses (st ++ [id]) id).trace =
      (List.range numProcesses).map
        (fun n => Exchange.mk n (Msg.forget id) "forgotten") :=
    sendSeq_trace_of_ok ack (Msg.forget id) (List.range numProcesses) hr
  constructor
  · have hb : (sendSeq ack (Msg.forget id) (List.range numProcesses)).2 = true := hr
    simp only [removeObject]
    rw [if_pos hb, jsIndexOf_append_self id st hid, jsSplice_at_length_append]
  · intro w hw
    rw [hltrace, hrtrace, sentTo_append]
    have h1 := sentTo_broadcast w numProcesses (Msg.store id input output)
    have h2 := sentTo_broadcast w numProcesses (Msg.forget id)
    rw [if_pos hw] at h1 h2
    rw [show expectedReplyTag (Msg.store id input output) = "stored" from rfl] at h1
    rw [show expectedReplyTag (Msg.forget id) = "forgotten" from rfl] at h2
    rw [h1, h2]
    rfl

/-- Witness for C5: load then unload of `"a"` on an initially empty record
with a 2-worker pool restores the empty record. -/
theorem C5_load_unload_roundtrip_witness :
    (removeObject (fun _ _ => true) 2
        (loadObject (fun _ _ => true) 2 [] "a" 0 0).state "a").state = [] :=
  (C5_load_unload_roundtrip (fun _ _ => true) 2 [] "a" 0 0
    (by decide) (by decide) (by decide)).1

/-- C6: with no diagram file ever appearing, `extractNetworkDiagrams` makes
exactly `retryAttempts` (100) polling attempts, spending
`timeoutBetweenRetries` (150 ms) of delay per failed attempt, then terminates
with the single terminal "Could not find any architectural diagrams" failure;
it performs at least one attempt, and on any inputs never exceeds the
budget. -/
theorem C6_extract_retry_budget (filesAt : Nat → List String)
    (render : String → Except String String)
    (hEmpty : ∀ k, (filesAt k).filter isDotFile = []) :
    (extractNetworkDiagrams filesAt render).1 = retryAttempts ∧
    (extractNetworkDiagrams filesAt render).2.1 =
      retryAttempts * timeoutBetweenRetries ∧
    (extractNetworkDiagrams filesAt render).2.2 =
      Except.error "Could not find any architectural diagrams" ∧
    (∀ fa r, (extractNetworkDiagrams fa r).1 ≤ retryAttempts ∧
      1 ≤ (extractNetworkDiagrams fa r).1) := by
  have htask : ∀ k, diagramAttempt filesAt render k =
      (timeoutBetweenRetries,
        Except.error "Could not find any architectural diagrams") := by
    intro k
    simp [diagramAttempt, hEmpty k]
  have hmain := retryAux_const_error (diagramAttempt filesAt render)
    timeoutBetweenRetries "Could not find any architectural diagrams" htask
    retryAttempts (by decide) 0
  refine ⟨?_, ?_, ?_, ?_⟩
  · rw [extractNetworkDiagrams, hmain]
  · rw [extractNetworkDiagrams, hmain]
  · rw [extractNetworkDiagrams, hmain]
  · intro fa r
    exact ⟨(retryAux_attempts (diagramAttempt fa r) retryAttempts 0).1,
      (retryAux_attempts (diagramAttempt fa r) retryAttempts 0).2 (by decide)⟩

/-- Witness for C6: an always-empty script folder exhausts the full retry
budget. -/
theorem C6_extract_retry_budget_witness :
    (extractNetworkDiagrams (fun _ => []) (fun _ => Except.ok "")).1 =
      retryAttempts :=
  (C6_extract_retry_budget (fun _ => []) (fun _ => Except.ok "")
    (fun _ => rfl)).1

/-- A concrete external renderer that fails on `a.dot` and succeeds on every
other file, used to exhibit `extractNetworkDiagrams` under a partial render
failure. -/
def renderFailA : String → Except String String :=
  fun f => if f = "a.dot" then Except.error "render failed" else Except.ok "svg"

/-- C7 counterexample: with `a.dot` and `b.dot` both present, the render of
`a.dot` failing and the render of `b.dot` succeeding, the whole
`extractNetworkDiagrams` call rejects with the single render error after the
full retry budget — the successful render of `b.dot` is never surfaced, so
the failure is not isolated to the failing file and the other file's
extraction is aborted with it. -/
theorem C7_counterexample :
    renderFailA "b.dot" = Except.ok "svg" ∧
    renderFailA "a.dot" = Except.error "render failed" ∧
    (extractNetworkDiagrams (fun _ => ["a.dot", "b.dot"]) renderFailA).2.2 =
      Except.error "render failed" ∧
    (extractNetworkDiagrams (fun _ => ["a.dot", "b.dot"]) renderFailA).1 =
      retryAttempts :=
  ⟨rfl, rfl, rfl, rfl⟩

/-- C7 (amended): when diagram files are found and the external render of any
one of them fails persistently, the entire attempt fails — `async.map` aborts
the batch, the other files' rendered outputs are discarded, the attempt is
retried for the whole retry budget, and the call finally rejects with a
single error instead of surfacing a per-file failure alongside the other
files' results. -/
theorem C7_render_failure_aborts_batch (files : List String)
    (render : String → Except String String)
    (f : String) (hf : f ∈ files.filter isDotFile)
    (hbad : (render f).isOk = false) :
    ((extractNetworkDiagrams (fun _ => files) render).2.2).isOk = false ∧
    (extractNetworkDiagrams (fun _ => files) render).1 = retryAttempts := by
  have hne : (files.filter isDotFile).isEmpty = false := by
    cases hfe : files.filter isDotFile with
    | nil => rw [hfe] at hf; cases hf
    | cons a l => simp
  have htask : ∀ k, ((diagramAttempt (fun _ => files) render k).2).isOk = false := by
    intro k
    simp only [diagramAttempt, hne]
    simp only [Bool.false_eq_true, if_false]
    apply exceptMapM_not_ok _ _ f hf
    cases hr : render f with
    | ok svg =>
      rw [hr] at hbad
      exact absurd hbad (by simp [Except.isOk, Except.toBool])
    | error e => rfl
  have hmain := retryAux_all_fail (diagramAttempt (fun _ => files) render) htask
    retryAttempts (by decide) 0
  exact ⟨hmain.2, hmain.1⟩

/-- Witness for C7 (amended): the concrete two-file folder with a failing
`a.dot` render. -/
theorem C7_render_failure_aborts_batch_witness :
    ((extractNetworkDiagrams (fun _ => ["a.dot", "b.dot"]) renderFailA).2.2).isOk
      = false ∧
    (extractNetworkDiagrams (fun _ => ["a.dot", "b.dot"]) renderFailA).1 =
      retryAttempts :=
  C7_render_failure_aborts_batch ["a.dot", "b.dot"] renderFailA "a.dot"
    (by decide) rfl

/-- C8: `processBatch` and `executeTrainingIteration` each send exactly one
exchange — `evaluateBatch` awaiting `evaluationCompleted`, and `iteration`
awaiting `iterationCompleted` — addressed to worker 0 only; no other worker
receives a message, whatever the pool size. -/
theorem C8_single_worker_batch_ops (numProcesses : Nat) (hN : 1 ≤ numProcesses)
    (batchFilename : String) :
    processBatchTrace batchFilename =
      [Exchange.mk 0 (Msg.evaluateBatch batchFilename) "evaluationCompleted"] ∧
    executeTrainingIterationTrace batchFilename =
      [Exchange.mk 0 (Msg.iteration batchFilename) "iterationCompleted"] ∧
    (processBatchTrace batchFilename).length = 1 ∧
    (executeTrainingIterationTrace batchFilename).length = 1 ∧
    (∀ w, w ≠ 0 → sentTo w (processBatchTrace batchFilename) = []) ∧
    (∀ w, w ≠ 0 → sentTo w (executeTrainingIterationTrace batchFilename) = []) := by
  refine ⟨rfl, rfl, rfl, rfl, ?_, ?_⟩
  · intro w hw
    simp [sentTo, processBatchTrace]
    exact fun hc => hw hc.symm
  · intro w hw
    simp [sentTo, executeTrainingIterationTrace]
    exact fun hc => hw hc.symm

/-- Witness for C8 on a pool of 3. -/
theorem C8_single_worker_batch_ops_witness :
    processBatchTrace "batch.t7" =
      [Exchange.mk 0 (Msg.evaluateBatch "batch.t7") "evaluationCompleted"] :=
  (C8_single_worker_batch_ops 3 (by decide) "batch.t7").1

/-- C9: `reset` broadcasts the reset exchange awaiting `resetCompleted` to
every worker and leaves the residency record untouched — after any prior
sequence of load/unload/reset operations, appending a `reset` changes nothing,
and every id resident before is resident after. -/
theorem C9_reset_preserves_residency (ack : Nat → Msg → Bool)
    (numProcesses : Nat) :
    (∀ st, (resetPool ack numProcesses st).state = st) ∧
    ((∀ n < numProcesses, ack n Msg.reset = true) →
      ∀ st, (resetPool ack numProcesses st).trace =
        (List.range numProcesses).map
          (fun n => Exchange.mk n Msg.reset "resetCompleted")) ∧
    (∀ ops st0, runOps ack numProcesses (ops ++ [TorchOp.resetOp]) st0 =
      runOps ack numProcesses ops st0) ∧
    (∀ st id, id ∈ st → id ∈ (resetPool ack numProcesses st).state) := by
  refine ⟨fun st => rfl, ?_, ?_, ?_⟩
  · intro hack st
    have hok : (sendSeq ack Msg.reset (List.range numProcesses)).2 = true :=
      (sendSeq_ok_iff ack Msg.reset (List.range numProcesses)).mpr
        (fun n hn => hack n (List.mem_range.mp hn))
    exact sendSeq_trace_of_ok ack Msg.reset (List.range numProcesses) hok
  · intro ops st0
    rw [runOps_append]
    rfl
  · intro st id hid
    exact hid

/-- Witness for C9: reset on a pool of 2 leaves a one-id record intact. -/
theorem C9_reset_preserves_residency_witness :
    (resetPool (fun _ _ => true) 2 ["a"]).state = ["a"] :=
  (C9_reset_preserves_residency (fun _ _ => true) 2).1 ["a"]

/-- C10: for an id absent from the residency record, a successful
`removeObject` splices at index `indexOf(id) = -1` and therefore deletes the
last, most recently appended entry of `allLoadedEntries` instead of leaving
the record unchanged. -/
theorem C10_remove_absent_splices_last (ack : Nat → Msg → Bool)
    (numProcesses : Nat) (st : List String) (id : String)
    (hid : id ∉ st)
    (hack : ∀ n < numProcesses, ack n (Msg.forget id) = true) :
    (removeObject ack numProcesses st id).ok = true ∧
    (removeObject ack numProcesses st id).state = st.dropLast ∧
    (st ≠ [] → (removeObject ack numProcesses st id).state ≠ st) := by
  have hok : (sendSeq ack (Msg.forget id) (List.range numProcesses)).2 = true :=
    (sendSeq_ok_iff ack (Msg.forget id) (List.range numProcesses)).mpr
      (fun n hn => hack n (List.mem_range.mp hn))
  have hstate : (removeObject ack numProcesses st id).state = st.dropLast := by
    simp only [removeObject]
    rw [if_pos hok, jsIndexOf_eq_neg_one id st hid, jsSplice_neg_one]
  refine ⟨hok, hstate, ?_⟩
  intro hne hc
  rw [hstate] at hc
  have hlen := congrArg List.length hc
  rw [List.length_dropLast] at hlen
  have hlz : st.length ≠ 0 := fun h0 => hne (List.length_eq_zero.mp h0)
  omega

/-- Witness for C10: removing the absent id `"z"` from the record `["x"]`
empties the record (its last entry `"x"` is dropped). -/
theorem C10_remove_absent_splices_last_witness :
    (removeObject (fun _ _ => true) 2 ["x"] "z").state =
      (["x"] : List String).dropLast :=
  (C10_remove_absent_splices_last (fun _ _ => true) 2 ["x"] "z"
    (by decide) (fun _ _ => rfl)).2.1
